import Mathlib

/-!
Verification development for the voice-mimic audio pipeline.

The definitions below are a shallow embedding of the audio utility code
(base64 codec, PCM decoder, WAV encoder, 16-bit quantizer) and of the
streaming speech-generation callback logic (chunk reassembly and the
single-resolution promise state machine).  Byte buffers are modelled as
`List Nat` with values below 256, 16-bit samples as `Int`, and normalized
float samples as `ℚ` (all float operations performed by the code on these
values — division by the power of two 32768, multiplication of a clamped
value by 32767/32768, clamping, truncation — are exact in IEEE doubles for
the ranges involved, so the rational model computes the same values).
-/

namespace AudioPipeline

/-- The standard base64 alphabet used by the platform btoa/atob primitives. -/
def b64Alphabet : List Char :=
  "ABCDEFGHIJKLMNOPQRSTUVWXYZabcdefghijklmnopqrstuvwxyz0123456789+/".toList

/-- Character for sextet value `n` (n < 64). -/
def b64Char (n : Nat) : Char := b64Alphabet.getD n 'A'

/-- Position of a character in the base64 alphabet, `none` when absent. -/
def b64Index (c : Char) : Option Nat :=
  go b64Alphabet 0
where
  go : List Char → Nat → Option Nat
    | [], _ => none
    | a :: rest, i => if a = c then some i else go rest (i + 1)

/-- Model of the platform `btoa` on a byte list (each byte one binary-string
character): groups of three bytes become four alphabet characters, with
`=` padding for a final group of one or two bytes. -/
def btoaChars : List Nat → List Char
  | [] => []
  | [a] => [b64Char (a / 4), b64Char (a % 4 * 16), '=', '=']
  | [a, b] => [b64Char (a / 4), b64Char (a % 4 * 16 + b / 16), b64Char (b % 16 * 4), '=']
  | a :: b :: c :: rest =>
      b64Char (a / 4) :: b64Char (a % 4 * 16 + b / 16) ::
      b64Char (b % 16 * 4 + c / 64) :: b64Char (c % 64) :: btoaChars rest

/-- Model of the platform `btoa`. -/
def btoa (bytes : List Nat) : String := String.mk (btoaChars bytes)

/-- Model of the platform `atob` on canonical base64 text (groups of four
characters, `=` padding only at the end); malformed input is `none`,
standing for the InvalidCharacterError thrown by `atob`. -/
def atobBytes : List Char → Option (List Nat)
  | [] => some []
  | c1 :: c2 :: c3 :: c4 :: rest =>
      match b64Index c1, b64Index c2 with
      | some n1, some n2 =>
          if c3 = '=' then
            if c4 = '=' ∧ rest = [] then some [n1 * 4 + n2 / 16] else none
          else
            match b64Index c3 with
            | some n3 =>
                if c4 = '=' then
                  if rest = [] then some [n1 * 4 + n2 / 16, n2 % 16 * 16 + n3 / 4]
                  else none
                else
                  match b64Index c4 with
                  | some n4 =>
                      (atobBytes rest).map
                        (fun t => (n1 * 4 + n2 / 16) :: (n2 % 16 * 16 + n3 / 4) ::
                                  (n3 % 4 * 64 + n4) :: t)
                  | none => none
            | none => none
      | _, _ => none
  | _ => none

/-- Model of the platform `atob`. -/
def atob (s : String) : Option (List Nat) := atobBytes s.toList

/-- Embedding of `decode` from utils/audio: a falsy (empty) argument returns
an empty byte array; otherwise `atob` produces the binary string whose
character codes are the bytes.  A thrown `atob` error is `none`. -/
def decode (base64 : String) : Option (List Nat) :=
  if base64 = "" then some [] else atob base64

/-- Embedding of `encode` from utils/audio: build the binary string from the
byte values and apply `btoa`. -/
def encode (bytes : List Nat) : String := btoa bytes

/-- Every alphabet character decodes back to its index. -/
lemma b64Index_b64Char : ∀ n < 64, b64Index (b64Char n) = some n := by decide

/-- Alphabet characters are never the padding character. -/
lemma b64Char_ne_eq : ∀ n < 64, b64Char n ≠ '=' := by decide

lemma pack_div (x y k : Nat) (hk : 0 < k) (hy : y < k) : (x * k + y) / k = x := by
  rw [Nat.mul_comm x k, Nat.add_comm (k * x) y, Nat.add_mul_div_left y x hk,
    Nat.div_eq_of_lt hy, Nat.zero_add]

lemma pack_mod (x y k : Nat) (hy : y < k) : (x * k + y) % k = y := by
  rw [Nat.add_comm (x * k) y, Nat.add_mul_mod_self_right, Nat.mod_eq_of_lt hy]

lemma pack_div0 (x k : Nat) (hk : 0 < k) : x * k / k = x := by
  have h := pack_div x 0 k hk hk
  simpa using h

lemma atobBytes_btoaChars (bytes : List Nat) (h : ∀ x ∈ bytes, x < 256) :
    atobBytes (btoaChars bytes) = some bytes := by
  induction bytes using btoaChars.induct with
  | case1 => simp [btoaChars, atobBytes]
  | case2 a =>
      have ha : a < 256 := h a (by simp)
      have h1 : a / 4 < 64 := by omega
      have h2 : a % 4 * 16 < 64 := by omega
      have d0 : a % 4 * 16 / 16 = a % 4 := pack_div0 _ _ (by norm_num)
      have e1 : a / 4 * 4 + a % 4 = a := by omega
      simp only [btoaChars, atobBytes, b64Index_b64Char _ h1, b64Index_b64Char _ h2,
        and_self, if_true, d0, e1]
  | case3 a b =>
      have ha : a < 256 := h a (by simp)
      have hb : b < 256 := h b (by simp)
      have h1 : a / 4 < 64 := by omega
      have h2 : a % 4 * 16 + b / 16 < 64 := by omega
      have h3 : b % 16 * 4 < 64 := by omega
      have d1 : (a % 4 * 16 + b / 16) / 16 = a % 4 :=
        pack_div _ _ _ (by norm_num) (by omega)
      have m1 : (a % 4 * 16 + b / 16) % 16 = b / 16 := pack_mod _ _ _ (by omega)
      have d2 : b % 16 * 4 / 4 = b % 16 := pack_div0 _ _ (by norm_num)
      have e1 : a / 4 * 4 + a % 4 = a := by omega
      have e2 : b / 16 * 16 + b % 16 = b := by omega
      simp only [btoaChars, atobBytes, b64Index_b64Char _ h1, b64Index_b64Char _ h2,
        b64Index_b64Char _ h3, b64Char_ne_eq _ h3, if_false, if_true,
        d1, m1, d2, e1, e2]
  | case4 a b c rest ih =>
      have ha : a < 256 := h a (by simp)
      have hb : b < 256 := h b (by simp)
      have hc : c < 256 := h c (by simp)
      have h1 : a / 4 < 64 := by omega
      have h2 : a % 4 * 16 + b / 16 < 64 := by omega
      have h3 : b % 16 * 4 + c / 64 < 64 := by omega
      have h4 : c % 64 < 64 := by omega
      have hrest : ∀ x ∈ rest, x < 256 := fun x hx => h x (by simp [hx])
      have d1 : (a % 4 * 16 + b / 16) / 16 = a % 4 :=
        pack_div _ _ _ (by norm_num) (by omega)
      have m1 : (a % 4 * 16 + b / 16) % 16 = b / 16 := pack_mod _ _ _ (by omega)
      have d2 : (b % 16 * 4 + c / 64) / 4 = b % 16 :=
        pack_div _ _ _ (by norm_num) (by omega)
      have m2 : (b % 16 * 4 + c / 64) % 4 = c / 64 := pack_mod _ _ _ (by omega)
      have e1 : a / 4 * 4 + a % 4 = a := by omega
      have e2 : b / 16 * 16 + b % 16 = b := by omega
      have e3 : c / 64 * 64 + c % 64 = c := by omega
      simp only [btoaChars, atobBytes, b64Index_b64Char _ h1, b64Index_b64Char _ h2,
        b64Index_b64Char _ h3, b64Index_b64Char _ h4, b64Char_ne_eq _ h3,
        b64Char_ne_eq _ h4, if_false, ih hrest, d1, m1, d2, m2, e1, e2, e3]
      rfl

lemma atob_btoa (bytes : List Nat) (h : ∀ x ∈ bytes, x < 256) :
    atob (btoa bytes) = some bytes := by
  unfold atob btoa
  have : (String.mk (btoaChars bytes)).toList = btoaChars bytes := rfl
  rw [this, atobBytes_btoaChars bytes h]

lemma btoa_eq_empty_iff (bytes : List Nat) : btoa bytes = "" ↔ bytes = [] := by
  constructor
  · intro hs
    have : btoaChars bytes = [] := by
      have := congrArg String.toList hs
      simpa [btoa] using this
    cases bytes with
    | nil => rfl
    | cons a t =>
        cases t with
        | nil => simp [btoaChars] at this
        | cons b t2 =>
            cases t2 <;> simp [btoaChars] at this
  · intro hb
    subst hb
    rfl

lemma decode_btoa (b : List Nat) (h : ∀ x ∈ b, x < 256) :
    decode (btoa b) = some b := by
  unfold decode
  by_cases hb : b = []
  · subst hb
    simp [btoa, btoaChars]
  · rw [if_neg (fun hs => hb ((btoa_eq_empty_iff b).mp hs))]
    exact atob_btoa b h

/-- C1. For every byte sequence `b` (including the empty one),
`decode (encode b)` succeeds and returns exactly `b`. -/
theorem decode_encode (b : List Nat) (h : ∀ x ∈ b, x < 256) :
    decode (encode b) = some b :=
  decode_btoa b h

/-- Witness for C1 at the concrete three-byte sequence `[77, 97, 110]`. -/
theorem decode_encode_witness :
    decode (encode [77, 97, 110]) = some [77, 97, 110] :=
  decode_encode [77, 97, 110] (by decide)

/-- Embedding of `combineBase64Chunks` from services/gemini: an empty chunk
list returns the empty string; otherwise every chunk is decoded with `atob`
(a chunk whose decoding throws contributes an empty byte array instead of
aborting), the byte arrays are concatenated in order, and the concatenation
is re-encoded with `btoa` exactly as `encode` does. -/
def combineBase64Chunks (chunks : List String) : String :=
  if chunks = [] then ""
  else btoa ((chunks.map (fun c => (atob c).getD [])).flatten)

/-- C2. Combining the individual encodings of a list of byte sequences yields
a payload that decodes to the in-order concatenation of the sequences, and
combining the empty list yields the empty string. -/
theorem combineBase64Chunks_correct (bs : List (List Nat))
    (h : ∀ b ∈ bs, ∀ x ∈ b, x < 256) :
    decode (combineBase64Chunks (bs.map encode)) = some bs.flatten ∧
    combineBase64Chunks [] = "" := by
  refine ⟨?_, rfl⟩
  by_cases hbs : bs = []
  · subst hbs
    simp [combineBase64Chunks, decode]
  · have hmap : (bs.map encode).map (fun c => (atob c).getD []) = bs := by
      rw [List.map_map]
      have : ∀ b ∈ bs, ((fun c => (atob c).getD []) ∘ encode) b = id b := by
        intro b hb
        simp only [Function.comp_apply, id_eq, encode, atob_btoa b (h b hb),
          Option.getD_some]
      rw [List.map_congr_left this, List.map_id]
    have hne : bs.map encode ≠ [] := by
      simpa using hbs
    unfold combineBase64Chunks
    rw [if_neg hne, hmap]
    apply decode_btoa
    intro x hx
    rw [List.mem_flatten] at hx
    obtain ⟨l, hl, hxl⟩ := hx
    exact h l hl x hxl

/-- Witness for C2 at the concrete chunk list `[[1, 2], [], [255]]`. -/
theorem combineBase64Chunks_correct_witness :
    decode (combineBase64Chunks ([[1, 2], [], [255]].map encode)) =
      some [1, 2, 255] ∧ combineBase64Chunks [] = "" :=
  combineBase64Chunks_correct [[1, 2], [], [255]] (by decide)

/-! WAV container encoder.  The ArrayBuffer/DataView writes of the source are
modelled by `writeBytes`, which stores a byte list into a buffer at an
offset, overwriting in place; `setUint16`/`setUint32` with the little-endian
flag store the two or four little-endian bytes of the value modulo 2^16 or
2^32 (the byte extraction below computes exactly those wrapped bytes), and
`writeString` stores the character codes of an ASCII string. -/

/-- Little-endian bytes stored by `setUint16(offset, n, true)`. -/
def u16le (n : Nat) : List Nat := [n % 256, n / 256 % 256]

/-- Little-endian bytes stored by `setUint32(offset, n, true)`. -/
def u32le (n : Nat) : List Nat :=
  [n % 256, n / 256 % 256, n / 65536 % 256, n / 16777216 % 256]

/-- Character codes written by `writeString` (one `setUint8` per character). -/
def asciiCodes (s : String) : List Nat := s.toList.map Char.toNat

/-- Store `bytes` into `buf` starting at `offset`, overwriting in place: the
write primitive shared by the DataView calls and the typed-array `set`. -/
def writeBytes (buf : List Nat) (offset : Nat) (bytes : List Nat) : List Nat :=
  buf.take offset ++ bytes ++ buf.drop (offset + bytes.length)

/-- Embedding of `pcmToWav` from utils/audio: a zero-filled buffer of
`44 + pcmData.length` bytes, the eleven header writes at their source
offsets, then the PCM bytes stored at offset 44. -/
def pcmToWav (pcmData : List Nat) (sampleRate : Nat) : List Nat :=
  let buffer := List.replicate (44 + pcmData.length) 0
  let v0 := writeBytes buffer 0 (asciiCodes "RIFF")
  let v1 := writeBytes v0 4 (u32le (36 + pcmData.length))
  let v2 := writeBytes v1 8 (asciiCodes "WAVE")
  let v3 := writeBytes v2 12 (asciiCodes "fmt ")
  let v4 := writeBytes v3 16 (u32le 16)
  let v5 := writeBytes v4 20 (u16le 1)
  let v6 := writeBytes v5 22 (u16le 1)
  let v7 := writeBytes v6 24 (u32le sampleRate)
  let v8 := writeBytes v7 28 (u32le (sampleRate * 2))
  let v9 := writeBytes v8 32 (u16le 2)
  let v10 := writeBytes v9 34 (u16le 16)
  let v11 := writeBytes v10 36 (asciiCodes "data")
  let v12 := writeBytes v11 40 (u32le pcmData.length)
  writeBytes v12 44 pcmData

/-- Canonical 44-byte little-endian PCM WAV header, stated from the spec
field list: RIFF, u32 36 + dataLength, WAVE, fmt-space, u32 16, u16 1 (PCM),
u16 1 (channels), u32 sampleRate, u32 sampleRate * 2 (byte rate), u16 2
(block align), u16 16 (bits per sample), data, u32 dataLength. -/
def canonicalWavHeader (sampleRate dataLength : Nat) : List Nat :=
  asciiCodes "RIFF" ++ u32le (36 + dataLength) ++ asciiCodes "WAVE" ++
  asciiCodes "fmt " ++ u32le 16 ++ u16le 1 ++ u16le 1 ++ u32le sampleRate ++
  u32le (sampleRate * 2) ++ u16le 2 ++ u16le 16 ++ asciiCodes "data" ++
  u32le dataLength

lemma drop_replicate (k m : Nat) (a : α) :
    (List.replicate m a).drop k = List.replicate (m - k) a := by
  induction k generalizing m with
  | zero => simp
  | succ k ih =>
      cases m with
      | zero => simp
      | succ m =>
          rw [List.replicate_succ, List.drop_succ_cons, ih]
          congr 1
          omega

lemma writeBytes_tile (H bs : List Nat) (o k n : Nat) (hH : H.length = o)
    (hk : bs.length = k) (hok : o + k ≤ 44) :
    writeBytes (H ++ List.replicate (44 - o + n) 0) o bs =
      (H ++ bs) ++ List.replicate (44 - (o + k) + n) 0 := by
  unfold writeBytes
  rw [List.take_left' hH, hk]
  have hdrop : (H ++ List.replicate (44 - o + n) 0).drop (o + k) =
      (List.replicate (44 - o + n) 0).drop k := by
    have : o + k = H.length + k := by omega
    rw [this, List.drop_append]
  rw [hdrop, drop_replicate]
  have : 44 - o + n - k = 44 - (o + k) + n := by omega
  rw [this, List.append_assoc]

lemma writeBytes_last (H rest bs : List Nat) (hH : H.length = 44)
    (hr : rest.length = bs.length) :
    writeBytes (H ++ rest) 44 bs = H ++ bs := by
  unfold writeBytes
  rw [List.take_left' hH]
  have hdrop : (H ++ rest).drop (44 + bs.length) = rest.drop bs.length := by
    have : 44 + bs.length = H.length + bs.length := by omega
    rw [this, List.drop_append]
  rw [hdrop, List.drop_of_length_le (le_of_eq hr), List.append_nil]

/-- C3. For every PCM byte list and sample rate, `pcmToWav` produces exactly
44 + length bytes: the canonical little-endian PCM WAV header of the spec
followed by the unmodified PCM bytes. -/
theorem pcmToWav_layout (pcmData : List Nat) (sampleRate : Nat) :
    pcmToWav pcmData sampleRate =
      canonicalWavHeader sampleRate pcmData.length ++ pcmData ∧
    (pcmToWav pcmData sampleRate).length = 44 + pcmData.length ∧
    (canonicalWavHeader sampleRate pcmData.length).length = 44 := by
  have hhdr : (canonicalWavHeader sampleRate pcmData.length).length = 44 := by
    simp [canonicalWavHeader, asciiCodes, u32le, u16le]
  have hmain : pcmToWav pcmData sampleRate =
      canonicalWavHeader sampleRate pcmData.length ++ pcmData := by
    unfold pcmToWav
    dsimp only
    have h0 : List.replicate (44 + pcmData.length) 0 =
        ([] : List Nat) ++ List.replicate (44 - 0 + pcmData.length) 0 := by
      simp
    rw [h0]
    rw [writeBytes_tile [] (asciiCodes "RIFF") 0 4 pcmData.length rfl rfl
      (by norm_num)]
    rw [writeBytes_tile _ _ 4 4 pcmData.length (by simp [asciiCodes])
      (by simp [u32le]) (by norm_num)]
    rw [writeBytes_tile _ _ 8 4 pcmData.length (by simp [asciiCodes, u32le])
      (by simp [asciiCodes]) (by norm_num)]
    rw [writeBytes_tile _ _ 12 4 pcmData.length (by simp [asciiCodes, u32le])
      (by simp [asciiCodes]) (by norm_num)]
    rw [writeBytes_tile _ _ 16 4 pcmData.length (by simp [asciiCodes, u32le])
      (by simp [u32le]) (by norm_num)]
    rw [writeBytes_tile _ _ 20 2 pcmData.length
      (by simp [asciiCodes, u32le, u16le]) (by simp [u16le]) (by norm_num)]
    rw [writeBytes_tile _ _ 22 2 pcmData.length
      (by simp [asciiCodes, u32le, u16le]) (by simp [u16le]) (by norm_num)]
    rw [writeBytes_tile _ _ 24 4 pcmData.length
      (by simp [asciiCodes, u32le, u16le]) (by simp [u32le]) (by norm_num)]
    rw [writeBytes_tile _ _ 28 4 pcmData.length
      (by simp [asciiCodes, u32le, u16le]) (by simp [u32le]) (by norm_num)]
    rw [writeBytes_tile _ _ 32 2 pcmData.length
      (by simp [asciiCodes, u32le, u16le]) (by simp [u16le]) (by norm_num)]
    rw [writeBytes_tile _ _ 34 2 pcmData.length
      (by simp [asciiCodes, u32le, u16le]) (by simp [u16le]) (by norm_num)]
    rw [writeBytes_tile _ _ 36 4 pcmData.length
      (by simp [asciiCodes, u32le, u16le]) (by simp [asciiCodes]) (by norm_num)]
    rw [writeBytes_tile _ _ 40 4 pcmData.length
      (by simp [asciiCodes, u32le, u16le]) (by simp [u32le]) (by norm_num)]
    rw [writeBytes_last _ _ pcmData
      (by simp [asciiCodes, u32le, u16le]) (by simp)]
    simp [canonicalWavHeader, List.append_assoc]
  refine ⟨hmain, ?_, hhdr⟩
  rw [hmain, List.length_append, hhdr]

/-! PCM decoder.  An AudioBuffer is a sample rate plus one normalized float
sample list per channel; samples are exact rationals since every value the
code produces is an Int16 divided by the power of two 32768. -/

structure AudioBuffer where
  sampleRate : Nat
  channels : List (List ℚ)

/-- Signed value of a little-endian 16-bit sample with low byte `lo` and
high byte `hi`, as read through an Int16Array view. -/
def toInt16 (lo hi : Nat) : Int :=
  let v := lo + 256 * hi
  if v < 32768 then (v : Int) else (v : Int) - 65536

/-- Reinterpretation of the byte buffer as an Int16Array of
`alignedLength / 2` samples: consecutive little-endian pairs, with a
trailing odd byte dropped. -/
def bytesToInt16LE : List Nat → List Int
  | lo :: hi :: rest => toInt16 lo hi :: bytesToInt16LE rest
  | _ => []

/-- Model of `ctx.createBuffer`: a zero-filled buffer with the requested
channel count and frame count; a zero channel count or zero frame count
raises NotSupportedError per the Web Audio API, modelled as `none`. -/
def createBuffer (numChannels frameCount sampleRate : Nat) : Option AudioBuffer :=
  if numChannels = 0 ∨ frameCount = 0 then none
  else some ⟨sampleRate, List.replicate numChannels (List.replicate frameCount 0)⟩

/-- Embedding of `decodeAudioData` from utils/audio.  The source compares the
JS float quotient `dataInt16.length / numChannels` with zero: that test holds
exactly when the sample count is zero and the channel count is positive (a
positive quotient, the Infinity of x / 0, and the NaN of 0 / 0 all fail it).
The buffer length handed to `createBuffer` is the WebIDL truncation of the
quotient, which is the Nat floor division.  Channel `c` of the filled buffer
holds sample `i * numChannels + c` divided by 32768.0 for each frame `i`
(the iterations the source loop performs past the truncated frame count
write outside the Float32Array and are discarded).  A null argument behaves
like the empty list. -/
def decodeAudioData (data : List Nat) (numChannels sampleRate : Nat) :
    Option AudioBuffer :=
  if data.length = 0 then createBuffer numChannels 1 sampleRate
  else
    let dataInt16 := bytesToInt16LE data
    if dataInt16.length = 0 ∧ 0 < numChannels then
      createBuffer numChannels 1 sampleRate
    else
      let frameCount := dataInt16.length / numChannels
      (createBuffer numChannels frameCount sampleRate).map fun buf =>
        { buf with channels :=
            (List.range numChannels).map fun c =>
              (List.range frameCount).map fun i =>
                ((dataInt16.getD (i * numChannels + c) 0 : Int) : ℚ) / 32768 }

lemma bytesToInt16LE_length (data : List Nat) :
    (bytesToInt16LE data).length = data.length / 2 := by
  induction data using bytesToInt16LE.induct with
  | case1 lo hi rest ih =>
      simp only [bytesToInt16LE, List.length_cons, ih]
      omega
  | case2 l h =>
      cases l with
      | nil => simp [bytesToInt16LE]
      | cons a t =>
          cases t with
          | nil => simp [bytesToInt16LE]
          | cons b t2 => exact absurd rfl (h a b t2)

lemma bytesToInt16LE_getD (data : List Nat) (k : Nat)
    (hk : k < (bytesToInt16LE data).length) :
    (bytesToInt16LE data).getD k 0 =
      toInt16 (data.getD (2 * k) 0) (data.getD (2 * k + 1) 0) := by
  induction data using bytesToInt16LE.induct generalizing k with
  | case1 lo hi rest ih =>
      cases k with
      | zero => simp [bytesToInt16LE]
      | succ k =>
          simp only [bytesToInt16LE, List.length_cons] at hk
          have hk2 : k < (bytesToInt16LE rest).length := by omega
          have h2 : 2 * (k + 1) = 2 * k + 2 := by omega
          have h3 : 2 * (k + 1) + 1 = 2 * k + 1 + 2 := by omega
          simp only [bytesToInt16LE, List.getD_cons_succ, ih k hk2, h2, h3]
  | case2 l h =>
      cases l with
      | nil => simp [bytesToInt16LE] at hk
      | cons a t =>
          cases t with
          | nil => simp [bytesToInt16LE] at hk
          | cons b t2 => exact absurd rfl (h a b t2)

lemma getD_map_range {α : Type} (n : Nat) (f : Nat → α) (d : α) (i : Nat)
    (h : i < n) :
    ((List.range n).map f).getD i d = f i := by
  have hlen : i < ((List.range n).map f).length := by simpa using h
  rw [List.getD_eq_getElem _ _ hlen, List.getElem_map, List.getElem_range]

/-- C4. Any byte input holding at least one complete frame decodes to a
buffer with `floor(sampleCount / numChannels)` frames per channel (the
sample count already excludes a trailing odd byte), where channel `c` at
frame `i` holds the signed little-endian 16-bit sample at interleaved index
`i * numChannels + c` divided by 32768. -/
theorem decodeAudioData_frames (data : List Nat) (numChannels sampleRate : Nat)
    (_hbytes : ∀ x ∈ data, x < 256) (hc : 0 < numChannels)
    (hone : numChannels ≤ data.length / 2) :
    ∃ buf, decodeAudioData data numChannels sampleRate = some buf ∧
      buf.channels.length = numChannels ∧
      (∀ ch ∈ buf.channels, ch.length = data.length / 2 / numChannels) ∧
      ∀ c < numChannels, ∀ i < data.length / 2 / numChannels,
        (buf.channels.getD c []).getD i 0 =
          ((toInt16 (data.getD (2 * (i * numChannels + c)) 0)
                    (data.getD (2 * (i * numChannels + c) + 1) 0) : Int) : ℚ)
            / 32768 := by
  have hslen : (bytesToInt16LE data).length = data.length / 2 :=
    bytesToInt16LE_length data
  have hdlen : data.length ≠ 0 := by
    intro h0
    rw [h0] at hone
    omega
  have hsnz : (bytesToInt16LE data).length ≠ 0 := by omega
  have hframes : 0 < (bytesToInt16LE data).length / numChannels := by
    have := (Nat.le_div_iff_mul_le hc).mpr (by omega :
      1 * numChannels ≤ (bytesToInt16LE data).length)
    omega
  unfold decodeAudioData
  rw [if_neg hdlen]
  dsimp only
  simp only [hsnz, false_and, if_false]
  unfold createBuffer
  rw [if_neg (by omega)]
  simp only [Option.map_some']
  refine ⟨_, rfl, ?_, ?_, ?_⟩
  · simp
  · intro ch hch
    simp only [List.mem_map] at hch
    obtain ⟨c, _, rfl⟩ := hch
    simp [hslen]
  · intro c hcn i hif
    rw [← hslen] at hif
    rw [getD_map_range _ _ _ _ hcn, getD_map_range _ _ _ _ hif]
    congr 1
    have hidx : i * numChannels + c < (bytesToInt16LE data).length := by
      have h1 : i + 1 ≤ (bytesToInt16LE data).length / numChannels := by omega
      have h2 : (i + 1) * numChannels ≤ (bytesToInt16LE data).length :=
        (Nat.le_div_iff_mul_le hc).mp h1
      have h3 : i * numChannels + c < (i + 1) * numChannels := by
        have : (i + 1) * numChannels = i * numChannels + numChannels := by ring
        omega
      omega
    rw [bytesToInt16LE_getD data _ hidx]

/-- Witness for C4 at the four-byte input `[52, 0, 0, 128]` with one
channel. -/
theorem decodeAudioData_frames_witness :
    ∃ buf, decodeAudioData [52, 0, 0, 128] 1 24000 = some buf ∧
      buf.channels.length = 1 ∧
      (∀ ch ∈ buf.channels, ch.length = [52, 0, 0, 128].length / 2 / 1) ∧
      ∀ c < 1, ∀ i < [52, 0, 0, 128].length / 2 / 1,
        (buf.channels.getD c []).getD i 0 =
          ((toInt16 ([52, 0, 0, 128].getD (2 * (i * 1 + c)) 0)
                    ([52, 0, 0, 128].getD (2 * (i * 1 + c) + 1) 0) : Int) : ℚ)
            / 32768 :=
  decodeAudioData_frames [52, 0, 0, 128] 1 24000 (by decide) (by decide)
    (by decide)

/-- C9 counterexample: the two-byte input `[0, 0]` read as two channels has
floor frame count 0, yet `decodeAudioData` fails (createBuffer receives a
zero frame count and raises) instead of returning a one-frame silent
buffer. -/
theorem decodeAudioData_zero_frames_fails :
    (bytesToInt16LE [0, 0]).length / 2 = 0 ∧
    decodeAudioData [0, 0] 2 24000 = none :=
  ⟨rfl, rfl⟩

/-- C9 amended: for empty input — and, more generally, whenever the input
holds no complete 16-bit sample — `decodeAudioData` returns exactly one
silent frame per channel.  The guard of the source tests the unfloored
quotient, so inputs with `0 < sampleCount < numChannels` (floor frame count
zero) are not covered by it and fail instead. -/
theorem decodeAudioData_silent (data : List Nat) (numChannels sampleRate : Nat)
    (hc : 0 < numChannels) (hshort : data.length < 2) :
    decodeAudioData data numChannels sampleRate =
      some ⟨sampleRate, List.replicate numChannels [0]⟩ := by
  have hbuf : createBuffer numChannels 1 sampleRate =
      some ⟨sampleRate, List.replicate numChannels [0]⟩ := by
    unfold createBuffer
    rw [if_neg (by omega)]
    rfl
  unfold decodeAudioData
  by_cases h0 : data.length = 0
  · rw [if_pos h0]
    exact hbuf
  · rw [if_neg h0]
    have hlen : (bytesToInt16LE data).length = 0 := by
      rw [bytesToInt16LE_length]
      omega
    simp only [hlen, true_and, hc, if_true]
    exact hbuf

/-- Witness for the C9 amended theorem at the one-byte input `[5]` with two
channels. -/
theorem decodeAudioData_silent_witness :
    decodeAudioData [5] 2 24000 = some ⟨24000, List.replicate 2 [0]⟩ :=
  decodeAudioData_silent [5] 2 24000 (by decide) (by decide)

/-! Transcoder quantization.  The float samples handed to the quantization
loop of fileToPcm16k are modelled as exact rationals: clamping, the products
of a 24-bit float32 sample with 32768 or 32767, and the ToInt16 truncation
are all exact double operations on this range. -/

/-- Truncation toward zero of a rational: the first step of the ToInt16
conversion applied when a double is stored into an Int16Array. -/
def ratTrunc (x : ℚ) : Int := if x < 0 then ⌈x⌉ else ⌊x⌋

/-- Wrap of the truncated value into the signed 16-bit range: the second
step of the ToInt16 conversion (reduce modulo 2^16, then shift the
representative into [-32768, 32767]). -/
def wrapInt16 (t : Int) : Int :=
  if t % 65536 < 32768 then t % 65536 else t % 65536 - 65536

/-- Embedding of the quantization loop of `fileToPcm16k`: clamp the sample
to [-1, 1] with Math.max/Math.min, scale a negative clamped value by 0x8000
and a non-negative one by 0x7FFF, and store into the Int16Array (ToInt16:
truncation toward zero plus 16-bit wrap). -/
def quantizeSample (s : ℚ) : Int :=
  let c := max (-1) (min 1 s)
  wrapInt16 (ratTrunc (if c < 0 then c * 32768 else c * 32767))

/-- Quantization as the spec words it: clamp to [-1, 1], then multiply a
negative clamped value by 32768 and a non-negative one by 32767, the result
being a signed 16-bit integer (so no wrap is involved). -/
def quantizeSampleSpec (s : ℚ) : Int :=
  let c := max (-1) (min 1 s)
  ratTrunc (if c < 0 then c * 32768 else c * 32767)

lemma wrapInt16_eq (t : Int) (h1 : -32768 ≤ t) (h2 : t ≤ 32767) :
    wrapInt16 t = t := by
  simp only [wrapInt16]
  split <;> omega

lemma ratTrunc_bounds (x : ℚ) (lo hi : Int) (hlo : (lo : ℚ) ≤ x)
    (hhi : x ≤ (hi : ℚ)) : lo ≤ ratTrunc x ∧ ratTrunc x ≤ hi := by
  unfold ratTrunc
  split
  · constructor
    · have hx : (lo : ℚ) ≤ (⌈x⌉ : ℚ) := le_trans hlo (Int.le_ceil x)
      exact_mod_cast hx
    · exact Int.ceil_le.mpr hhi
  · constructor
    · exact Int.le_floor.mpr hlo
    · have hx : (⌊x⌋ : ℚ) ≤ (hi : ℚ) := le_trans (Int.floor_le x) hhi
      exact_mod_cast hx

/-- C5. The stored sample always equals the spec quantization — clamp to
[-1, 1], scale a negative value by 32768 and a non-negative one by 32767 —
and lies in the signed 16-bit range, because the clamp keeps the scaled
value inside [-32768, 32767] and the Int16 wrap is then the identity. -/
theorem quantizeSample_eq_spec (s : ℚ) :
    quantizeSample s = quantizeSampleSpec s ∧
    -32768 ≤ quantizeSample s ∧ quantizeSample s ≤ 32767 := by
  unfold quantizeSample quantizeSampleSpec
  dsimp only
  have hlo : (-1 : ℚ) ≤ max (-1) (min 1 s) := le_max_left _ _
  have hhi : max (-1) (min 1 s) ≤ 1 :=
    max_le (by norm_num) (min_le_left _ _)
  have hbounds : (-32768 : ℚ) ≤
      (if max (-1) (min 1 s) < 0 then max (-1) (min 1 s) * 32768
       else max (-1) (min 1 s) * 32767) ∧
      (if max (-1) (min 1 s) < 0 then max (-1) (min 1 s) * 32768
       else max (-1) (min 1 s) * 32767) ≤ (32767 : ℚ) := by
    split
    · constructor
      · nlinarith
      · nlinarith
    · constructor
      · nlinarith
      · nlinarith
  have ht := ratTrunc_bounds
    (if max (-1) (min 1 s) < 0 then max (-1) (min 1 s) * 32768
     else max (-1) (min 1 s) * 32767) (-32768) 32767
    (by push_cast; exact hbounds.1) (by push_cast; exact hbounds.2)
  have hw := wrapInt16_eq _ ht.1 ht.2
  exact ⟨hw, by rw [hw]; exact ht.1, by rw [hw]; exact ht.2⟩

/-! Transcoder output size.  The browser decode of the uploaded file and the
OfflineAudioContext rendering are platform collaborators: the source
constructs the offline context as mono at 16000 Hz with length
Math.ceil(audioBuffer.duration * 16000), and per the Web Audio contract
startRendering yields exactly that many frames.  The model below takes the
rendered mono float data as input, with the rendered length recorded by
`renderFrameCount`. -/

/-- Frame count the source requests from the OfflineAudioContext:
Math.ceil(duration * 16000), `duration` in seconds. -/
def renderFrameCount (duration : ℚ) : Nat := (⌈duration * 16000⌉).toNat

/-- Little-endian byte serialization of the Int16Array
(`new Uint8Array(int16Data.buffer)`). -/
def int16ToBytesLE (samples : List Int) : List Nat :=
  (samples.map fun v => [(v % 65536).toNat % 256, (v % 65536).toNat / 256]).flatten

/-- Embedding of the tail of `fileToPcm16k`: quantize the rendered mono
float samples and base64-encode the little-endian bytes of the
Int16Array. -/
def fileToPcm16k (rendered : List ℚ) : String :=
  encode (int16ToBytesLE (rendered.map quantizeSample))

lemma int16ToBytesLE_lt (samples : List Int) :
    ∀ x ∈ int16ToBytesLE samples, x < 256 := by
  intro x hx
  unfold int16ToBytesLE at hx
  rw [List.mem_flatten] at hx
  obtain ⟨l, hl, hxl⟩ := hx
  rw [List.mem_map] at hl
  obtain ⟨v, _, rfl⟩ := hl
  simp only [List.mem_cons, List.mem_singleton, List.not_mem_nil, or_false] at hxl
  rcases hxl with rfl | rfl
  · omega
  · have hlt : v % 65536 < 65536 := Int.emod_lt_of_pos v (by norm_num)
    have hge : 0 ≤ v % 65536 := Int.emod_nonneg v (by norm_num)
    omega

lemma int16ToBytesLE_length (samples : List Int) :
    (int16ToBytesLE samples).length = 2 * samples.length := by
  induction samples with
  | nil => rfl
  | cons v rest ih =>
      simp only [int16ToBytesLE, List.map_cons, List.flatten_cons,
        List.length_append, List.length_cons, List.length_nil, List.length_map]
      simp only [int16ToBytesLE, List.length_map] at ih
      omega

/-- C6. When the rendered buffer holds the `Math.ceil(duration * 16000)`
frames the source requests from the 16000 Hz mono OfflineAudioContext, the
produced base64 payload decodes to a PCM byte buffer of exactly two bytes
per frame, i.e. `2 * ceil(duration * 16000)` bytes. -/
theorem fileToPcm16k_frames (d : ℚ) (rendered : List ℚ)
    (hlen : rendered.length = renderFrameCount d) :
    ∃ bytes, decode (fileToPcm16k rendered) = some bytes ∧
      bytes.length = 2 * renderFrameCount d := by
  refine ⟨int16ToBytesLE (rendered.map quantizeSample), ?_, ?_⟩
  · exact decode_btoa _ (int16ToBytesLE_lt _)
  · rw [int16ToBytesLE_length, List.length_map, hlen]

/-- Witness for C6 at a two-second rendered buffer: 32000 frames give a
64000-byte PCM payload. -/
theorem fileToPcm16k_frames_witness :
    ∃ bytes, decode (fileToPcm16k (List.replicate 32000 0)) = some bytes ∧
      bytes.length = 64000 := by
  have hrf : renderFrameCount 2 = 32000 := by
    have hceil : (⌈(2 : ℚ) * 16000⌉ : ℤ) = 32000 := by norm_num
    unfold renderFrameCount
    rw [hceil]
    rfl
  obtain ⟨bytes, h1, h2⟩ := fileToPcm16k_frames 2 (List.replicate 32000 0)
    (by rw [List.length_replicate, hrf])
  exact ⟨bytes, h1, by rw [h2, hrf]⟩

/-! Streaming session state machine.  `generateSpeech` wires four callbacks
(onmessage, onerror, onclose and a 60-second safety timer) around one
promise; the mutable closure state is `GenState` and each callback firing is
a `GenEvent`.  `step` is the exact body of the corresponding handler:
it returns the updated state together with the resolve/reject call the
handler makes, if any (`Outcome`).  JS promise resolution is level-based,
but the code additionally guards every terminal call with the `isResolved`
flag; the theorems below are about the outcomes the handlers emit. -/

/-- One part of a server content message: optional inline audio data
(`part.inlineData?.data`, a base64 chunk) and optional text. -/
structure MsgPart where
  inlineData : Option String
  text : Option String
deriving DecidableEq

/-- Mutable closure state of `generateSpeech`. -/
structure GenState where
  accumulatedAudioChunks : List String
  accumulatedText : String
  isResolved : Bool
  hasReceivedAudio : Bool
deriving DecidableEq

/-- State at the moment the callbacks are installed. -/
def initialGenState : GenState :=
  { accumulatedAudioChunks := []
    accumulatedText := ""
    isResolved := false
    hasReceivedAudio := false }

/-- Terminal outcome of the promise: `resolved` carries the combined base64
audio, `rejected` the error message. -/
inductive Outcome where
  | resolved (audio : String)
  | rejected (message : String)
deriving DecidableEq

/-- Callback firings, in the order they happen to arrive: a server message
(with its parts and turn-complete flag), a connection error, a close, or
the 60-second safety timer. -/
inductive GenEvent where
  | message (parts : List MsgPart) (turnComplete : Bool)
  | error (message : String)
  | close
  | timeout
deriving DecidableEq

/-- Per-part accumulation of the onmessage loop: a truthy (non-empty)
`inlineData.data` is pushed and marks audio as received; truthy text is
appended. -/
def processPart (s : GenState) (p : MsgPart) : GenState :=
  let s1 := match p.inlineData with
    | some d =>
        if d ≠ "" then
          { s with accumulatedAudioChunks := s.accumulatedAudioChunks ++ [d]
                   hasReceivedAudio := true }
        else s
    | none => s
  match p.text with
  | some t => if t ≠ "" then
      { s1 with accumulatedText := s1.accumulatedText ++ t } else s1
  | none => s1

/-- Embedding of the four handlers of `generateSpeech`.  onmessage folds the
parts, then on turnComplete resolves with the combined chunks when audio was
received, rejects when only non-empty text accumulated, and otherwise does
nothing; onerror rejects; onclose resolves with the combined chunks when any
were received and rejects otherwise; the safety timer does the same with its
own messages.  Every terminal call is guarded by `isResolved`. -/
def step (s : GenState) (e : GenEvent) : GenState × Option Outcome :=
  match e with
  | .message parts turnComplete =>
      let s1 := parts.foldl processPart s
      if turnComplete then
        if !s1.isResolved then
          if s1.hasReceivedAudio then
            ({ s1 with isResolved := true },
             some (.resolved (combineBase64Chunks s1.accumulatedAudioChunks)))
          else if 0 < s1.accumulatedText.trim.length then
            ({ s1 with isResolved := true },
             some (.rejected ("Vocal Replication Error: " ++ s1.accumulatedText)))
          else (s1, none)
        else (s1, none)
      else (s1, none)
  | .error msg =>
      if !s.isResolved then
        ({ s with isResolved := true },
         some (.rejected ("API Error: " ++
           (if msg ≠ "" then msg else "Unknown connection error"))))
      else (s, none)
  | .close =>
      if !s.isResolved then
        if 0 < s.accumulatedAudioChunks.length then
          ({ s with isResolved := true },
           some (.resolved (combineBase64Chunks s.accumulatedAudioChunks)))
        else
          ({ s with isResolved := true },
           some (.rejected
             "Vocal clone session closed prematurely. Ensure the reference clip is clear."))
      else (s, none)
  | .timeout =>
      if !s.isResolved then
        if 0 < s.accumulatedAudioChunks.length then
          ({ s with isResolved := true },
           some (.resolved (combineBase64Chunks s.accumulatedAudioChunks)))
        else
          ({ s with isResolved := true },
           some (.rejected
             (if s.accumulatedText ≠ "" then
               "Vocal cloning failed: " ++ s.accumulatedText
              else
               "Vocal cloning timeout. The complexity of the reference exceeded processing limits.")))
      else (s, none)

/-- Run a sequence of callback firings from a state, collecting the terminal
calls made along the way. -/
def runEvents (s : GenState) : List GenEvent → GenState × List Outcome
  | [] => (s, [])
  | e :: es =>
      let r := step s e
      let rest := runEvents r.1 es
      (rest.1, r.2.toList ++ rest.2)

lemma processPart_isResolved (s : GenState) (p : MsgPart) :
    (processPart s p).isResolved = s.isResolved := by
  unfold processPart
  cases p.inlineData <;> cases p.text <;> dsimp only <;> split <;> (try split) <;> rfl

lemma foldl_processPart_isResolved (parts : List MsgPart) (s : GenState) :
    (parts.foldl processPart s).isResolved = s.isResolved := by
  induction parts generalizing s with
  | nil => rfl
  | cons p rest ih => rw [List.foldl_cons, ih, processPart_isResolved]

lemma step_of_resolved (s : GenState) (e : GenEvent) (h : s.isResolved = true) :
    (step s e).2 = none ∧ (step s e).1.isResolved = true := by
  cases e with
  | message parts turnComplete =>
      have hres : (parts.foldl processPart s).isResolved = true := by
        rw [foldl_processPart_isResolved, h]
      cases turnComplete <;> simp [step, hres]
  | error msg => simp [step, h]
  | close => simp [step, h]
  | timeout => simp [step, h]

lemma step_some_resolves (s : GenState) (e : GenEvent) (o : Outcome)
    (hem : (step s e).2 = some o) : (step s e).1.isResolved = true := by
  cases e with
  | message parts turnComplete =>
      cases turnComplete with
      | false => simp [step] at hem
      | true =>
          rcases hres : (parts.foldl processPart s).isResolved with _ | _
          · rcases haud : (parts.foldl processPart s).hasReceivedAudio with _ | _
            · by_cases htext :
                0 < (parts.foldl processPart s).accumulatedText.trim.length
              · simp [step, hres, haud, htext]
              · simp [step, hres, haud, htext] at hem
            · simp [step, hres, haud]
          · simp [step, hres] at hem
  | error msg =>
      rcases hres : s.isResolved with _ | _
      · simp [step, hres]
      · simp [step, hres] at hem
  | close =>
      rcases hres : s.isResolved with _ | _
      · by_cases hchunks : 0 < s.accumulatedAudioChunks.length
        · simp [step, hres, hchunks]
        · simp [step, hres, hchunks]
      · simp [step, hres] at hem
  | timeout =>
      rcases hres : s.isResolved with _ | _
      · by_cases hchunks : 0 < s.accumulatedAudioChunks.length
        · simp [step, hres, hchunks]
        · simp [step, hres, hchunks]
      · simp [step, hres] at hem

lemma step_none_unresolved (s : GenState) (e : GenEvent)
    (h : s.isResolved = false) (hem : (step s e).2 = none) :
    (step s e).1.isResolved = false ∧ e ≠ .timeout := by
  cases e with
  | message parts turnComplete =>
      have hres : (parts.foldl processPart s).isResolved = false := by
        rw [foldl_processPart_isResolved, h]
      refine ⟨?_, by intro hcon; cases hcon⟩
      cases turnComplete with
      | false => simp [step, hres]
      | true =>
          rcases haud : (parts.foldl processPart s).hasReceivedAudio with _ | _
          · by_cases htext :
              0 < (parts.foldl processPart s).accumulatedText.trim.length
            · simp [step, hres, haud, htext] at hem
            · simp [step, hres, haud, htext]
          · simp [step, hres, haud] at hem
  | error msg => simp [step, h] at hem
  | close =>
      by_cases hchunks : 0 < s.accumulatedAudioChunks.length <;>
        simp [step, h, hchunks] at hem
  | timeout =>
      by_cases hchunks : 0 < s.accumulatedAudioChunks.length <;>
        simp [step, h, hchunks] at hem

lemma step_timeout_emits (s : GenState) (h : s.isResolved = false) :
    ((step s .timeout).2).isSome = true := by
  by_cases hchunks : 0 < s.accumulatedAudioChunks.length <;>
    simp [step, h, hchunks]

lemma runEvents_outcomes (es : List GenEvent) : ∀ s : GenState,
    ((runEvents s es).2.length ≤ if s.isResolved then 0 else 1) ∧
    (s.isResolved = false → GenEvent.timeout ∈ es →
      (runEvents s es).2.length = 1) := by
  induction es with
  | nil =>
      intro s
      refine ⟨by split <;> simp [runEvents], ?_⟩
      intro _ hmem
      simp at hmem
  | cons e rest ih =>
      intro s
      rcases hres : s.isResolved with _ | _
      · rcases hem : (step s e).2 with _ | o
        · have hnext := step_none_unresolved s e hres hem
          have ihr := ih (step s e).1
          have h1 : (runEvents (step s e).1 rest).2.length ≤ 1 := by
            have h2 := ihr.1
            rw [hnext.1] at h2
            simpa using h2
          constructor
          · simp only [runEvents, hem, Option.toList_none, List.nil_append, hres]
            simpa using h1
          · intro _ hmem
            rcases List.mem_cons.mp hmem with rfl | hmem2
            · exact absurd rfl hnext.2
            · simp only [runEvents, hem, Option.toList_none, List.nil_append]
              exact ihr.2 hnext.1 hmem2
        · have hnext := step_some_resolves s e o hem
          have ihr := ih (step s e).1
          have hzero : (runEvents (step s e).1 rest).2.length = 0 := by
            have h2 := ihr.1
            rw [hnext] at h2
            simpa using h2
          constructor
          · simp only [runEvents, hem, Option.toList_some, List.length_append,
              List.length_cons, List.length_nil, hres, hzero]
            simp
          · intro _ _
            simp only [runEvents, hem, Option.toList_some, List.length_append,
              List.length_cons, List.length_nil, hzero]
      · have hstep := step_of_resolved s e hres
        have ihr := ih (step s e).1
        have hzero : (runEvents (step s e).1 rest).2.length = 0 := by
          have h2 := ihr.1
          rw [hstep.2] at h2
          simpa using h2
        constructor
        · simp only [runEvents, hstep.1, Option.toList_none, List.nil_append,
            hres, hzero]
          simp
        · intro hcon
          exact absurd hcon (by simp [hres])

/-- C7. For every sequence of callback firings, `generateSpeech` makes at
most one terminal call, and any sequence in which the safety timer fires
makes exactly one: the promise is never resolved or rejected a second
time. -/
theorem generateSpeech_single_outcome (es : List GenEvent) :
    (runEvents initialGenState es).2.length ≤ 1 ∧
    (GenEvent.timeout ∈ es → (runEvents initialGenState es).2.length = 1) := by
  have h := runEvents_outcomes es initialGenState
  exact ⟨by simpa [initialGenState] using h.1, fun hmem => h.2 rfl hmem⟩

/-- Witness for C7: a close followed by the timer firing makes exactly one
terminal call. -/
theorem generateSpeech_single_outcome_witness :
    (runEvents initialGenState [GenEvent.close, GenEvent.timeout]).2.length = 1 :=
  (generateSpeech_single_outcome [GenEvent.close, GenEvent.timeout]).2
    (by decide)

/-- C8. From any not-yet-resolved state, an abrupt close and the 60-second
timer behave alike: with at least one accumulated audio chunk they resolve
with `combineBase64Chunks` of the chunks, and with none they reject with an
error. -/
theorem close_timeout_outcome (s : GenState) (h : s.isResolved = false) :
    (s.accumulatedAudioChunks ≠ [] →
      (step s .close).2 =
        some (.resolved (combineBase64Chunks s.accumulatedAudioChunks)) ∧
      (step s .timeout).2 =
        some (.resolved (combineBase64Chunks s.accumulatedAudioChunks))) ∧
    (s.accumulatedAudioChunks = [] →
      (∃ m, (step s .close).2 = some (.rejected m)) ∧
      ∃ m, (step s .timeout).2 = some (.rejected m)) := by
  constructor
  · intro hne
    have hpos : 0 < s.accumulatedAudioChunks.length :=
      List.length_pos.mpr hne
    exact ⟨by simp [step, h, hpos], by simp [step, h, hpos]⟩
  · intro hnil
    have hzero : ¬ 0 < s.accumulatedAudioChunks.length := by
      simp [hnil]
    constructor
    · refine ⟨"Vocal clone session closed prematurely. Ensure the reference clip is clear.", ?_⟩
      simp [step, h, hzero]
    · refine ⟨if s.accumulatedText = "" then
          "Vocal cloning timeout. The complexity of the reference exceeded processing limits."
        else "Vocal cloning failed: " ++ s.accumulatedText, ?_⟩
      simp [step, h, hzero]

/-- Witness for C8: from a state holding one chunk, close resolves with the
combined chunks; from the initial state, close rejects. -/
theorem close_timeout_outcome_witness :
    (step ⟨["AQID"], "", false, true⟩ GenEvent.close).2 =
      some (.resolved (combineBase64Chunks ["AQID"])) ∧
    ∃ m, (step initialGenState GenEvent.close).2 = some (.rejected m) :=
  ⟨((close_timeout_outcome ⟨["AQID"], "", false, true⟩ rfl).1 (by decide)).1,
   ((close_timeout_outcome initialGenState rfl).2 rfl).1⟩

/-- C10. When a turn-complete message arrives before any terminal call, the
promise resolves exactly when audio has been received (including in this
message), rejects exactly when no audio arrived but the accumulated text is
non-blank after trimming, and otherwise stays pending — the state remains
unresolved and a later close, error or timer firing still emits an
outcome. -/
theorem turnComplete_outcome (s : GenState) (parts : List MsgPart)
    (h : s.isResolved = false) :
    ((parts.foldl processPart s).hasReceivedAudio = true →
      step s (.message parts true) =
        ({ parts.foldl processPart s with isResolved := true },
         some (.resolved (combineBase64Chunks
           (parts.foldl processPart s).accumulatedAudioChunks)))) ∧
    ((parts.foldl processPart s).hasReceivedAudio = false →
      0 < (parts.foldl processPart s).accumulatedText.trim.length →
      ∃ m, step s (.message parts true) =
        ({ parts.foldl processPart s with isResolved := true },
         some (.rejected m))) ∧
    ((parts.foldl processPart s).hasReceivedAudio = false →
      (parts.foldl processPart s).accumulatedText.trim.length = 0 →
      step s (.message parts true) = (parts.foldl processPart s, none) ∧
      (parts.foldl processPart s).isResolved = false ∧
      ((step (parts.foldl processPart s) .close).2).isSome = true ∧
      ((step (parts.foldl processPart s) .timeout).2).isSome = true ∧
      ∀ m, ((step (parts.foldl processPart s) (.error m)).2).isSome = true) := by
  have hres : (parts.foldl processPart s).isResolved = false := by
    rw [foldl_processPart_isResolved, h]
  refine ⟨?_, ?_, ?_⟩
  · intro haudio
    simp [step, hres, haudio]
  · intro haudio htext
    refine ⟨"Vocal Replication Error: " ++
      (parts.foldl processPart s).accumulatedText, ?_⟩
    simp [step, hres, haudio, htext]
  · intro haudio htext
    have htext2 :
        ¬ 0 < (parts.foldl processPart s).accumulatedText.trim.length := by
      omega
    refine ⟨by simp [step, hres, haudio, htext2], hres, ?_, ?_, ?_⟩
    · by_cases hchunks :
        0 < (parts.foldl processPart s).accumulatedAudioChunks.length <;>
        simp [step, hres, hchunks]
    · exact step_timeout_emits _ hres
    · intro m
      simp [step, hres]

/-- Witness for C10: a turn-complete message delivering one audio chunk to
the initial state resolves with that chunk combined. -/
theorem turnComplete_outcome_witness :
    step initialGenState (.message [⟨some "AQID", none⟩] true) =
      ({ [MsgPart.mk (some "AQID") none].foldl processPart initialGenState
          with isResolved := true },
       some (.resolved (combineBase64Chunks
         ([MsgPart.mk (some "AQID") none].foldl processPart
           initialGenState).accumulatedAudioChunks))) :=
  (turnComplete_outcome initialGenState [⟨some "AQID", none⟩] rfl).1 (by decide)

end AudioPipeline
